import Mathlib

/-!
Verification development for the koishichito/crypto-bot repository.

The repository ships a startup program ( `src/index.js` ) that loads the
environment, logs the configured mode / exchange / trading pair and installs a
SIGINT handler; the trading core (SignalEngine, RiskSizer, PositionManager,
TradeLedger, PerformanceTracker) is specified in the design document but its
implementation is not part of the shipped sources, so those components are
modelled here from the specification text, while the startup program is
embedded directly from `src/index.js`.

Prices, sizes and pnl are modelled as rationals; bar windows are lists ordered
oldest-first with the most recent (current) bar last.
-/

namespace CryptoBot

/-- Trade / signal direction as produced by the signal engine. -/
inductive Direction where
  | long
  | short
  | flat
deriving DecidableEq, Repr

/-- Side of an open position or closed trade. -/
inductive Side where
  | long
  | short
deriving DecidableEq, Repr

/-- Modelled from the spec: a `Candle` is an OHLCV bar
`{symbol, timestamp, open, high, low, close, volume}` (§3). -/
structure Candle where
  symbol : String
  timestamp : ℕ
  open_ : ℚ
  high : ℚ
  low : ℚ
  close : ℚ
  volume : ℚ
deriving DecidableEq, Repr

/-- The last `n` elements of a list (the `prior N closed bars` of a window). -/
def lastN {α : Type} (n : ℕ) (l : List α) : List α :=
  l.drop (l.length - n)

/-- Maximum of the highs of a list of candles, `none` on the empty list. -/
def maxHigh? : List Candle → Option ℚ
  | [] => none
  | c :: t => some (t.foldl (fun m d => max m d.high) c.high)

/-- Minimum of the lows of a list of candles, `none` on the empty list. -/
def minLow? : List Candle → Option ℚ
  | [] => none
  | c :: t => some (t.foldl (fun m d => min m d.low) c.low)

/-- Modelled from the spec: Breakout/Turtle entry evaluation (§4.1).  The
window is oldest-first and its last element is the current bar.  If the
latest close strictly exceeds the maximum high of the prior `N` closed bars
(excluding the current bar) the engine emits `long`; if it falls strictly
below the minimum low of those bars it emits `short`; with fewer than `N`
prior bars of history it emits `flat`, and an exact match to a threshold
emits no signal. -/
def breakoutSignal (N : ℕ) (w : List Candle) : Direction :=
  match w.getLast? with
  | none => .flat
  | some c =>
    let prior := w.dropLast
    if prior.length < N then .flat
    else
      match maxHigh? (lastN N prior), minLow? (lastN N prior) with
      | some mh, some ml =>
        if mh < c.close then .long
        else if c.close < ml then .short
        else .flat
      | _, _ => .flat

theorem le_foldl_max (t : List Candle) (a : ℚ) :
    a ≤ t.foldl (fun m d => max m d.high) a := by
  induction t generalizing a with
  | nil => exact le_refl a
  | cons d t ih =>
    exact le_trans (le_max_left a d.high) (ih (max a d.high))

theorem foldl_min_le (t : List Candle) (a : ℚ) :
    t.foldl (fun m d => min m d.low) a ≤ a := by
  induction t generalizing a with
  | nil => exact le_refl a
  | cons d t ih =>
    exact le_trans (ih (min a d.low)) (min_le_left a d.low)

theorem minLow_le_maxHigh (cs : List Candle) (ml mh : ℚ)
    (hwf : ∀ d ∈ cs, d.low ≤ d.high)
    (hm : minLow? cs = some ml) (hM : maxHigh? cs = some mh) : ml ≤ mh := by
  cases cs with
  | nil => simp [minLow?] at hm
  | cons c t =>
    simp only [minLow?, maxHigh?, Option.some.injEq] at hm hM
    have h1 : ml ≤ c.low := hm ▸ foldl_min_le t c.low
    have h2 : c.high ≤ mh := hM ▸ le_foldl_max t c.high
    exact le_trans h1 (le_trans (hwf c (List.mem_cons_self c t)) h2)

theorem maxHigh?_isSome (cs : List Candle) (h : cs ≠ []) :
    ∃ m, maxHigh? cs = some m := by
  cases cs with
  | nil => exact absurd rfl h
  | cons c t => exact ⟨_, rfl⟩

theorem minLow?_isSome (cs : List Candle) (h : cs ≠ []) :
    ∃ m, minLow? cs = some m := by
  cases cs with
  | nil => exact absurd rfl h
  | cons c t => exact ⟨_, rfl⟩

theorem lastN_length {α : Type} (n : ℕ) (l : List α) (h : n ≤ l.length) :
    (lastN n l).length = n := by
  simp [lastN, List.length_drop]
  omega

theorem lastN_subset {α : Type} (n : ℕ) (l : List α) : lastN n l ⊆ l :=
  List.drop_subset _ l

/-- C1: the Breakout entry emits `long` iff the latest close strictly exceeds
the maximum high of the prior `N` closed bars (excluding the current bar); an
exact match to that threshold emits no signal (for well-formed candles); and
with fewer than `N` prior bars of history the signal is always `flat`. -/
theorem breakout_entry_spec :
    (∀ (N : ℕ) (prior : List Candle) (c : Candle), 0 < N → N ≤ prior.length →
      (breakoutSignal N (prior ++ [c]) = .long ↔
        ∃ m, maxHigh? (lastN N prior) = some m ∧ m < c.close)) ∧
    (∀ (N : ℕ) (prior : List Candle) (c : Candle), 0 < N → N ≤ prior.length →
      (∀ d ∈ prior, d.low ≤ d.high) →
      maxHigh? (lastN N prior) = some c.close →
      breakoutSignal N (prior ++ [c]) = .flat) ∧
    (∀ (N : ℕ) (w : List Candle), w.dropLast.length < N →
      breakoutSignal N w = .flat) := by
  refine ⟨?_, ?_, ?_⟩
  · intro N prior c hN hlen
    have hne : lastN N prior ≠ [] := by
      intro h
      have := lastN_length N prior hlen
      rw [h] at this
      simp at this
      omega
    obtain ⟨mh, hmh⟩ := maxHigh?_isSome _ hne
    obtain ⟨ml, hml⟩ := minLow?_isSome _ hne
    have hn : ¬ prior.length < N := not_lt.mpr hlen
    constructor
    · intro h
      refine ⟨mh, hmh, ?_⟩
      simp only [breakoutSignal, List.getLast?_concat, List.dropLast_concat,
        if_neg hn, hmh, hml] at h
      by_cases hlt : mh < c.close
      · exact hlt
      · rw [if_neg hlt] at h
        by_cases hlt2 : c.close < ml
        · rw [if_pos hlt2] at h
          exact absurd h (by simp)
        · rw [if_neg hlt2] at h
          exact absurd h (by simp)
    · rintro ⟨m, hm, hlt⟩
      rw [hm] at hmh
      injection hmh with hmm
      subst hmm
      simp only [breakoutSignal, List.getLast?_concat, List.dropLast_concat,
        if_neg hn, hm, hml, if_pos hlt]
  · intro N prior c hN hlen hwf heq
    have hne : lastN N prior ≠ [] := by
      intro h
      have := lastN_length N prior hlen
      rw [h] at this
      simp at this
      omega
    obtain ⟨ml, hml⟩ := minLow?_isSome _ hne
    have hwf' : ∀ d ∈ lastN N prior, d.low ≤ d.high :=
      fun d hd => hwf d (lastN_subset N prior hd)
    have hle : ml ≤ c.close := minLow_le_maxHigh _ ml c.close hwf' hml heq
    have hn : ¬ prior.length < N := not_lt.mpr hlen
    simp only [breakoutSignal, List.getLast?_concat, List.dropLast_concat,
      if_neg hn, heq, hml]
    rw [if_neg (lt_irrefl c.close), if_neg (not_lt.mpr hle)]
  · intro N w h
    cases hw : w.getLast? with
    | none => simp [breakoutSignal, hw]
    | some c =>
      simp only [breakoutSignal, hw]
      rw [if_pos h]

/-- Sample prior bar used by concrete evaluations: high 12, low 9, close 11. -/
def candleA : Candle := ⟨ "BTC/USDT", 0, 10, 12, 9, 11, 1 ⟩

/-- Sample current bar whose close 13 strictly exceeds the prior high 12. -/
def candleB : Candle := ⟨ "BTC/USDT", 1, 11, 14, 10, 13, 1 ⟩

/-- Sample current bar whose close exactly matches the prior high 12. -/
def candleEq : Candle := ⟨ "BTC/USDT", 1, 11, 14, 10, 12, 1 ⟩

/-- Witness for C1: with lookback 1, a close of 13 above the prior high 12
emits `long`; an exact match to the threshold emits `flat`; a window with
fewer than 5 prior bars emits `flat`. -/
theorem breakout_entry_spec_witness :
    breakoutSignal 1 ([candleA] ++ [candleB]) = .long ∧
    breakoutSignal 1 ([candleA] ++ [candleEq]) = .flat ∧
    breakoutSignal 5 [candleA] = .flat := by
  refine ⟨?_, ?_, ?_⟩
  · exact (breakout_entry_spec.1 1 [candleA] candleB (by decide) (by decide)).mpr
      ⟨12, by decide, by decide⟩
  · exact breakout_entry_spec.2.1 1 [candleA] candleEq (by decide) (by decide)
      (by decide) (by decide)
  · exact breakout_entry_spec.2.2 5 [candleA] (by decide)

/-- Error raised by the RiskSizer on degenerate input. -/
inductive RiskError where
  | invalidRiskInput
deriving DecidableEq, Repr

/-- Modelled from the spec: RiskSizer (§4.2).  `stopDistance` is
`|entryPrice − stopReference|`; the sizing fails with `InvalidRiskInput` if
`stopDistance ≤ 0` or `equity ≤ 0`, and otherwise returns
`(equity × r) / stopDistance` clamped to the configured maximum position
size `maxPositionSize` (the spec's minimum-tradable-increment rounding has no
configured increment in the recognized options of §6 and is not modelled). -/
def riskSize (maxPositionSize equity r entryPrice stopReference : ℚ) :
    Except RiskError ℚ :=
  let stopDistance := |entryPrice - stopReference|
  if stopDistance ≤ 0 ∨ equity ≤ 0 then .error .invalidRiskInput
  else .ok (min (equity * r / stopDistance) maxPositionSize)

theorem riskSize_concrete (mx : ℚ) (hmx : 20 ≤ mx) :
    riskSize mx 10000 (1 / 100) 100 95 = .ok 20 := by
  have habs : |(100 : ℚ) - 95| = 5 := by norm_num
  simp only [riskSize, habs]
  rw [if_neg (by norm_num)]
  norm_num
  exact hmx

/-- C2: sizing fails with `InvalidRiskInput` iff the stop distance or the
equity is nonpositive; otherwise it returns `(equity × r) / stopDistance`
clamped to the configured maximum; and the concrete instance
`equity = 10000, r = 0.01, entry = 100, stop = 95` yields size 20 whenever
the configured maximum is at least 20. -/
theorem riskSizer_spec :
    (∀ (mx e r en st : ℚ),
      riskSize mx e r en st = .error .invalidRiskInput ↔
        (|en - st| ≤ 0 ∨ e ≤ 0)) ∧
    (∀ (mx e r en st : ℚ), ¬ (|en - st| ≤ 0 ∨ e ≤ 0) →
      riskSize mx e r en st = .ok (min (e * r / |en - st|) mx)) ∧
    (∀ mx : ℚ, 20 ≤ mx →
      riskSize mx 10000 (1 / 100) 100 95 = .ok 20) := by
  refine ⟨?_, ?_, ?_⟩
  · intro mx e r en st
    by_cases h : |en - st| ≤ 0 ∨ e ≤ 0
    · simp only [riskSize]
      rw [if_pos h]
      exact iff_of_true rfl h
    · simp only [riskSize]
      rw [if_neg h]
      exact iff_of_false (by simp) h
  · intro mx e r en st h
    simp only [riskSize]
    rw [if_neg h]
  · exact riskSize_concrete

/-- Witness for C2: with maximum position size 1000, equity 10000, risk 1%,
entry 100 and stop 95, the sizer returns 20; with zero equity it fails. -/
theorem riskSizer_spec_witness :
    riskSize 1000 10000 (1 / 100) 100 95 = .ok 20 ∧
    riskSize 1000 0 (1 / 100) 100 95 = .error .invalidRiskInput := by
  constructor
  · exact riskSizer_spec.2.2 1000 (by norm_num)
  · exact (riskSizer_spec.1 1000 0 (1 / 100) 100 95).mpr (Or.inr le_rfl)

/-- Direction sign used in the pnl formula: +1 for long, −1 for short. -/
def dirSign : Side → ℚ
  | .long => 1
  | .short => -1

/-- Modelled from the spec: a closed-trade record (§3). -/
structure Trade where
  symbol : String
  side : Side
  entryPrice : ℚ
  exitPrice : ℚ
  size : ℚ
  pnl : ℚ
  openedAt : ℕ
  closedAt : ℕ
  strategyTag : String
  exitReason : String
deriving DecidableEq, Repr

/-- Position lifecycle status of the PositionManager state machine (§4.3). -/
inductive PosStatus where
  | flat
  | entering
  | open_
  | exiting
deriving DecidableEq, Repr

/-- Modelled from the spec: the per-symbol state owned by the
PositionManager, together with the append-only TradeLedger it commits
closed trades into (§4.3, §4.4). -/
structure PMState where
  symbol : String
  status : PosStatus
  side : Side
  entryPrice : ℚ
  size : ℚ
  stopLevel : ℚ
  openedAt : ℕ
  strategyTag : String
  pendingReason : String
  ledger : List Trade
deriving DecidableEq, Repr

/-- Events consumed by the PositionManager state machine (§4.3). -/
inductive PMEvent where
  | entrySignal (side : Side) (size : ℚ) (stop : ℚ) (tag : String)
  | entryFill (price : ℚ) (t : ℕ)
  | entryReject
  | stopUpdate (level : ℚ)
  | exitSignal (reason : String)
  | exitFill (price : ℚ) (t : ℕ)
deriving DecidableEq, Repr

/-- Modelled from the spec: one transition of the PositionManager state
machine `FLAT → ENTERING → OPEN → EXITING → FLAT` (§4.3).  An entry signal
with its computed size moves FLAT to ENTERING; a fill confirmation records
the entry price and moves to OPEN; a stop update is the `OPEN → OPEN`
self-loop; an exit condition moves OPEN to EXITING; the closing fill
computes `pnl = (exitPrice − entryPrice) × size × dirSign side`, appends a
Trade to the ledger and returns to FLAT.  Events that do not apply in the
current status leave the state unchanged. -/
def pmStep (s : PMState) (e : PMEvent) : PMState :=
  match s.status, e with
  | .flat, .entrySignal side size stop tag =>
    { s with status := .entering, side := side, size := size,
             stopLevel := stop, strategyTag := tag }
  | .entering, .entryFill p t =>
    { s with status := .open_, entryPrice := p, openedAt := t }
  | .entering, .entryReject => { s with status := .flat }
  | .open_, .stopUpdate lvl => { s with stopLevel := lvl }
  | .open_, .exitSignal reason =>
    { s with status := .exiting, pendingReason := reason }
  | .exiting, .exitFill p t =>
    { s with status := .flat,
             ledger := s.ledger ++
               [⟨ s.symbol, s.side, s.entryPrice, p, s.size,
                  (p - s.entryPrice) * s.size * dirSign s.side,
                  s.openedAt, t, s.strategyTag, s.pendingReason ⟩] }
  | _, _ => s

/-- C3: opening a position from FLAT and closing it again appends exactly
one Trade to the ledger, whose pnl is
`(exitPrice − entryPrice) × size × dirSign side`; while the position is OPEN
(including the stop-update self-loop) the ledger is unchanged and no Trade
is produced. -/
theorem pm_roundtrip_spec :
    ∀ (s0 : PMState) (side : Side) (size stop pe px : ℚ)
      (tag reason : String) (t1 t2 : ℕ), s0.status = .flat →
      (pmStep (pmStep s0 (.entrySignal side size stop tag))
          (.entryFill pe t1)).status = .open_ ∧
      (pmStep (pmStep s0 (.entrySignal side size stop tag))
          (.entryFill pe t1)).ledger = s0.ledger ∧
      (∀ lvl : ℚ,
        (pmStep (pmStep (pmStep s0 (.entrySignal side size stop tag))
            (.entryFill pe t1)) (.stopUpdate lvl)).ledger = s0.ledger) ∧
      (pmStep (pmStep (pmStep (pmStep s0 (.entrySignal side size stop tag))
          (.entryFill pe t1)) (.exitSignal reason))
          (.exitFill px t2)).status = .flat ∧
      (pmStep (pmStep (pmStep (pmStep s0 (.entrySignal side size stop tag))
          (.entryFill pe t1)) (.exitSignal reason))
          (.exitFill px t2)).ledger =
        s0.ledger ++
          [⟨ s0.symbol, side, pe, px, size, (px - pe) * size * dirSign side,
             t1, t2, tag, reason ⟩] := by
  intro s0 side size stop pe px tag reason t1 t2 h0
  obtain ⟨sym, st, sd, ep, sz, sl, oa, tg, pr, led⟩ := s0
  simp only at h0
  subst h0
  refine ⟨rfl, rfl, fun lvl => rfl, rfl, rfl⟩

/-- A PositionManager in the FLAT state with an empty ledger. -/
def pmInit (sym : String) : PMState :=
  ⟨ sym, .flat, .long, 0, 0, 0, 0, "", "", [] ⟩

/-- Witness for C3: a concrete long round-trip (entry 100, exit 110,
size 2) appends exactly the Trade with pnl 20. -/
theorem pm_roundtrip_spec_witness :
    (pmStep (pmStep (pmStep (pmStep (pmInit "BTC/USDT")
        (.entrySignal .long 2 95 "breakout")) (.entryFill 100 5))
        (.exitSignal "stop-hit")) (.exitFill 110 9)).ledger =
      [⟨ "BTC/USDT", .long, 100, 110, 2, (110 - 100) * 2 * dirSign .long,
         5, 9, "breakout", "stop-hit" ⟩] := by
  exact (pm_roundtrip_spec (pmInit "BTC/USDT") .long 2 95 100 110
    "breakout" "stop-hit" 5 9 rfl).2.2.2.2

/-- Profit factor: `na` when there are no trades at all, `infinite` when
there are trades but no losing trade, else the ratio of gross wins to the
absolute value of gross losses (§4.4). -/
inductive ProfitFactor where
  | na
  | infinite
  | ratio (q : ℚ)
deriving DecidableEq, Repr

/-- Sum of the pnl of a list of trades. -/
def pnlSum (ts : List Trade) : ℚ := ts.foldl (fun a t => a + t.pnl) 0

/-- Maximum pnl in a list of trades, `none` on the empty list. -/
def maxPnl? : List Trade → Option ℚ
  | [] => none
  | t :: rest => some (rest.foldl (fun m u => max m u.pnl) t.pnl)

/-- Minimum pnl in a list of trades, `none` on the empty list. -/
def minPnl? : List Trade → Option ℚ
  | [] => none
  | t :: rest => some (rest.foldl (fun m u => min m u.pnl) t.pnl)

/-- Modelled from the spec: profit factor
`sum(positive pnl) / |sum(negative pnl)|`, infinite if no losing trades,
N/A if no trades at all (§4.4). -/
def computeProfitFactor (ts : List Trade) : ProfitFactor :=
  if ts.isEmpty then .na
  else
    let losers := ts.filter (fun t => decide (t.pnl < 0))
    if losers.isEmpty then .infinite
    else .ratio (pnlSum (ts.filter (fun t => decide (0 < t.pnl))) / |pnlSum losers|)

/-- Modelled from the spec: the derived aggregate over all Trades — counts,
win rate, profit factor, max win, max loss, and per-side / per-symbol
breakdowns (§3, §4.4). -/
structure PerformanceSnapshot where
  totalTrades : ℕ
  netPnl : ℚ
  winRate : Option ℚ
  profitFactor : ProfitFactor
  maxWin : Option ℚ
  maxLoss : Option ℚ
  longPnl : ℚ
  shortPnl : ℚ
  bySymbol : List (String × ℚ)
deriving DecidableEq, Repr

/-- Modelled from the spec: recompute a `PerformanceSnapshot` from the full
trade sequence of the ledger; a pure function of the ledger contents
(§4.4). -/
def computeSnapshot (ts : List Trade) : PerformanceSnapshot :=
  { totalTrades := ts.length
    netPnl := pnlSum ts
    winRate :=
      if ts.isEmpty then none
      else some ((ts.filter (fun t => decide (0 < t.pnl))).length / ts.length : ℚ)
    profitFactor := computeProfitFactor ts
    maxWin := maxPnl? (ts.filter (fun t => decide (0 < t.pnl)))
    maxLoss := minPnl? (ts.filter (fun t => decide (t.pnl < 0)))
    longPnl := pnlSum (ts.filter (fun t => decide (t.side = Side.long)))
    shortPnl := pnlSum (ts.filter (fun t => decide (t.side = Side.short)))
    bySymbol := (ts.map (fun t => t.symbol)).dedup.map
      (fun sym => (sym, pnlSum (ts.filter (fun t => decide (t.symbol = sym))))) }

/-- Modelled from the spec: the PerformanceTracker holds no state of its own
beyond a cache invalidated whenever the ledger grows (§3 Ownership). -/
structure Tracker where
  cache : Option (ℕ × PerformanceSnapshot)
deriving DecidableEq, Repr

/-- Modelled from the spec: serve a snapshot from the cache when the ledger
has not grown since it was computed, else recompute from the ledger and
refresh the cache. -/
def trackerGet (tr : Tracker) (ledger : List Trade) :
    PerformanceSnapshot × Tracker :=
  match tr.cache with
  | some (n, snap) =>
    if n = ledger.length then (snap, tr)
    else (computeSnapshot ledger, ⟨ some (ledger.length, computeSnapshot ledger) ⟩)
  | none => (computeSnapshot ledger, ⟨ some (ledger.length, computeSnapshot ledger) ⟩)

/-- A trade carrying only a pnl, used for profit-factor instances. -/
def pnlTrade (q : ℚ) : Trade :=
  ⟨ "BTC/USDT", .long, 0, 0, 1, q, 0, 0, "breakout", "signal-exit" ⟩

/-- The demonstration ledger with trade pnls +10, +5, −3. -/
def pfDemoLedger : List Trade := [pnlTrade 10, pnlTrade 5, pnlTrade (-3)]

/-- C4: computing a PerformanceSnapshot twice over an unchanged ledger
yields identical results — the first computation through a fresh tracker
equals the pure recomputation, and a second computation through the updated
tracker returns the same snapshot; and the profit factor of the trade pnl
sequence `[+10, +5, −3]` is `15 / 3 = 5`. -/
theorem perf_idempotence_spec :
    (∀ ledger : List Trade,
      (trackerGet ⟨ none ⟩ ledger).1 = computeSnapshot ledger ∧
      (trackerGet (trackerGet ⟨ none ⟩ ledger).2 ledger).1 =
        (trackerGet ⟨ none ⟩ ledger).1) ∧
    computeProfitFactor pfDemoLedger = .ratio 5 ∧
    (computeSnapshot pfDemoLedger).profitFactor = .ratio 5 := by
  refine ⟨?_, ?_, ?_⟩
  · intro ledger
    refine ⟨rfl, ?_⟩
    simp [trackerGet]
  · simp only [computeProfitFactor, pfDemoLedger, pnlTrade, pnlSum,
      List.filter, List.foldl, List.isEmpty]
    norm_num
  · simp only [computeSnapshot, computeProfitFactor, pfDemoLedger, pnlTrade,
      pnlSum, List.filter, List.foldl, List.isEmpty]
    norm_num

/-- Modelled from the spec: the most recent closed trade in the given
symbol and direction, read from the TradeLedger (§4.1 Turtle filter). -/
def lastTradeIn (sym : String) (sd : Side) (ledger : List Trade) :
    Option Trade :=
  (ledger.filter (fun t => decide (t.symbol = sym) && decide (t.side = sd))).getLast?

/-- The side an entry signal direction corresponds to, `none` for flat. -/
def sideOfDir : Direction → Option Side
  | .long => some .long
  | .short => some .short
  | .flat => none

/-- Modelled from the spec: the Turtle filter — when enabled, an entry
signal is suppressed (emitted as flat) when the immediately preceding
closed trade in the same symbol and direction was a winner (pnl > 0); this
state is carried from the TradeLedger (§4.1). -/
def applyTurtleFilter (enabled : Bool) (sym : String) (ledger : List Trade)
    (d : Direction) : Direction :=
  if !enabled then d
  else
    match sideOfDir d with
    | none => d
    | some sd =>
      match lastTradeIn sym sd ledger with
      | some tr => if 0 < tr.pnl then .flat else d
      | none => d

/-- C6: with the filter enabled, for every symbol and non-flat entry
direction, if the most recent closed trade in that symbol and direction was
a winner (pnl > 0) then the entry signal evaluated against that ledger
(before any other trade closes) is suppressed to flat. -/
theorem turtle_filter_spec :
    ∀ (sym : String) (ledger : List Trade) (d : Direction) (sd : Side)
      (tr : Trade), sideOfDir d = some sd →
      lastTradeIn sym sd ledger = some tr → 0 < tr.pnl →
      applyTurtleFilter true sym ledger d = .flat := by
  intro sym ledger d sd tr hsd hlast hpnl
  simp only [applyTurtleFilter, Bool.not_true, Bool.false_eq_true, if_false,
    hsd, hlast, if_pos hpnl]

/-- A winning long trade in BTC/USDT used by the Turtle-filter witness. -/
def winningTrade : Trade :=
  ⟨ "BTC/USDT", .long, 100, 110, 2, 20, 0, 1, "breakout", "signal-exit" ⟩

/-- Witness for C6: after a winning long trade in BTC/USDT, a long entry
signal in BTC/USDT is suppressed to flat. -/
theorem turtle_filter_spec_witness :
    applyTurtleFilter true "BTC/USDT" [winningTrade] .long = .flat := by
  exact turtle_filter_spec "BTC/USDT" [winningTrade] .long .long winningTrade
    rfl (by decide) (by decide)

/-- Simple moving average of the last `k` closes of a series
(sum of the last `k` elements divided by `k`). -/
def smaLast (k : ℕ) (closes : List ℚ) : ℚ :=
  (lastN k closes).foldl (· + ·) 0 / (k : ℚ)

/-- The fast moving average is strictly above the slow one on this window:
the `crossed` state of the MA-Cross strategy. -/
def fastAbove (F S : ℕ) (w : List ℚ) : Prop :=
  smaLast S w < smaLast F w

/-- Modelled from the spec: MA-Cross evaluation (§4.1).  The window of
closes is oldest-first with the current bar last.  A crossover from
`fast ≤ slow` on the previous bar to `fast > slow` on the current bar emits
`long`; the inverse emits `short`; only the transition bar emits a signal,
and with insufficient history (fewer than `S + 1` bars, so that both the
previous and the current `S`-bar average exist) the engine emits `flat`. -/
def maCrossSignal (F S : ℕ) (w : List ℚ) : Direction :=
  if w.length < S + 1 then .flat
  else
    let prev := w.dropLast
    if smaLast F prev ≤ smaLast S prev ∧ smaLast S w < smaLast F w then .long
    else if smaLast S prev ≤ smaLast F prev ∧ smaLast F w < smaLast S w then .short
    else .flat

/-- The signal emitted on bar `t` of a close series: the MA-Cross evaluation
of the prefix of length `t`. -/
def signalAt (F S : ℕ) (cs : List ℚ) (t : ℕ) : Direction :=
  maCrossSignal F S (cs.take t)

theorem take_dropLast_eq (cs : List ℚ) (u : ℕ) (hu : u ≤ cs.length) :
    (cs.take u).dropLast = cs.take (u - 1) := by
  rw [List.dropLast_eq_take, List.length_take, List.take_take]
  congr 1
  omega

theorem signalAt_long_iff (F S : ℕ) (cs : List ℚ) (u : ℕ)
    (hu : u ≤ cs.length) :
    signalAt F S cs u = .long ↔
      S + 1 ≤ u ∧ ¬ fastAbove F S (cs.take (u - 1)) ∧
        fastAbove F S (cs.take u) := by
  have hlen : (cs.take u).length = u := by
    rw [List.length_take]
    omega
  by_cases hS : u < S + 1
  · simp only [signalAt, maCrossSignal, hlen, if_pos hS]
    constructor
    · intro h
      exact absurd h (by simp)
    · rintro ⟨h1, -, -⟩
      omega
  · simp only [signalAt, maCrossSignal, hlen, if_neg hS,
      take_dropLast_eq cs u hu]
    by_cases hc : smaLast F (cs.take (u - 1)) ≤ smaLast S (cs.take (u - 1)) ∧
        smaLast S (cs.take u) < smaLast F (cs.take u)
    · rw [if_pos hc]
      exact iff_of_true rfl ⟨by omega, not_lt.mpr hc.1, hc.2⟩
    · rw [if_neg hc]
      constructor
      · intro h
        by_cases hc2 : smaLast S (cs.take (u - 1)) ≤ smaLast F (cs.take (u - 1)) ∧
            smaLast F (cs.take u) < smaLast S (cs.take u)
        · rw [if_pos hc2] at h
          exact absurd h (by simp)
        · rw [if_neg hc2] at h
          exact absurd h (by simp)
      · rintro ⟨-, h2, h3⟩
        exact absurd ⟨not_lt.mp (fun hx => h2 hx), h3⟩ hc

/-- C5: if the fast moving average crosses the slow one upward exactly once
over the series (at bar `t`, with enough history there), then `long` is
emitted exactly on bar `t`: exactly one long entry signal, on the crossing
bar, and none on any other bar — in particular none on later bars while the
series remains crossed. -/
theorem maCross_single_cross_spec :
    ∀ (F S : ℕ) (cs : List ℚ) (t : ℕ),
      S + 1 ≤ t → t ≤ cs.length →
      ¬ fastAbove F S (cs.take (t - 1)) → fastAbove F S (cs.take t) →
      (∀ u, S + 1 ≤ u → u ≤ cs.length →
        ¬ fastAbove F S (cs.take (u - 1)) → fastAbove F S (cs.take u) →
        u = t) →
      ∀ u, u ≤ cs.length → (signalAt F S cs u = .long ↔ u = t) := by
  intro F S cs t ht1 ht2 hprev hcur huniq u hu
  rw [signalAt_long_iff F S cs u hu]
  constructor
  · rintro ⟨h1, h2, h3⟩
    exact huniq u h1 hu h2 h3
  · rintro rfl
    exact ⟨ht1, hprev, hcur⟩

/-- The demonstration close series for the MA-Cross witness: with fast
period 1 and slow period 2 the fast average crosses the slow one upward
exactly once, on bar 3, and stays above it on bar 4. -/
def maDemoSeries : List ℚ := [1, 1, 5, 9]

/-- Witness for C5: on the demonstration series with `F = 1`, `S = 2`, the
long signal is emitted on the crossing bar 3 and not on bar 4 although the
averages remain crossed there. -/
theorem maCross_single_cross_spec_witness :
    signalAt 1 2 maDemoSeries 3 = .long ∧ signalAt 1 2 maDemoSeries 4 ≠ .long := by
  have hprev : ¬ fastAbove 1 2 (maDemoSeries.take 2) := by
    simp only [maDemoSeries, fastAbove, smaLast, lastN, List.take, List.length,
      List.drop, List.foldl]
    norm_num
  have hcur : fastAbove 1 2 (maDemoSeries.take 3) := by
    simp only [maDemoSeries, fastAbove, smaLast, lastN, List.take, List.length,
      List.drop, List.foldl]
    norm_num
  have hmid : fastAbove 1 2 (maDemoSeries.take 4) := by
    simp only [maDemoSeries, fastAbove, smaLast, lastN, List.take, List.length,
      List.drop, List.foldl]
    norm_num
  have huniq : ∀ u, 2 + 1 ≤ u → u ≤ maDemoSeries.length →
      ¬ fastAbove 1 2 (maDemoSeries.take (u - 1)) →
      fastAbove 1 2 (maDemoSeries.take u) → u = 3 := by
    intro u hu1 hu2
    simp only [maDemoSeries, List.length] at hu2
    interval_cases u
    · intro _ _
      rfl
    · intro hneg _
      exact absurd hcur hneg
  have h := maCross_single_cross_spec 1 2 maDemoSeries 3 (by norm_num)
    (by simp [maDemoSeries]) hprev hcur huniq
  constructor
  · exact (h 3 (by simp [maDemoSeries])).mpr rfl
  · intro hlong
    have := (h 4 (by simp [maDemoSeries])).mp hlong
    omega

/-- An environment: a partial map from variable names to values, as read by
`process.env` in `src/index.js`. -/
def Env : Type := String → Option String

/-- `process.env.KEY || dflt` from `src/index.js`: the default is used when
the variable is unset, and also when it is set to the empty string (the
JavaScript `||` operator treats the empty string as falsy). -/
def envLookup (env : Env) (key dflt : String) : String :=
  match env key with
  | none => dflt
  | some v => if v = "" then dflt else v

/-- Priority of a winston npm log level, `none` for an unknown level. -/
def levelPriority : String → Option ℕ
  | "error" => some 0
  | "warn" => some 1
  | "info" => some 2
  | "http" => some 3
  | "verbose" => some 4
  | "debug" => some 5
  | "silly" => some 6
  | _ => none

/-- Whether a logger configured at the given level writes info messages:
the level must be known and at least as verbose as `info`. -/
def infoEnabled (level : String) : Bool :=
  match levelPriority level with
  | some p => decide (2 ≤ p)
  | none => false

/-- The five startup info messages of `src/index.js`, in program order,
built from the environment exactly as the template literals do. -/
def startupMessages (env : Env) : List String :=
  [ "Crypto Bot starting..."
  , "Mode: " ++ envLookup env "BOT_MODE" "paper_trading"
  , "Exchange: " ++ envLookup env "EXCHANGE" "not configured"
  , "Trading Pair: " ++ envLookup env "TRADING_PAIR" "not configured"
  , "Bot initialized successfully" ]

/-- The startup log output of `src/index.js`: the logger is created at
level `process.env.LOG_LEVEL || 'info'` and all five startup messages are
logged at info level, so they appear iff that level admits info output. -/
def startupLogs (env : Env) : List String :=
  if infoEnabled (envLookup env "LOG_LEVEL" "info") then startupMessages env
  else []

/-- Outcome of running the startup program: either it completes startup
with its log output, or it aborts with a fatal configuration error. -/
inductive StartupResult where
  | ok (logs : List String)
  | configError (msg : String)
deriving DecidableEq, Repr

/-- Whether a startup outcome is a fatal configuration error. -/
def isConfigError : StartupResult → Bool
  | .ok _ => false
  | .configError _ => true

/-- The startup program of `src/index.js`: it unconditionally logs the five
startup messages and completes; no code path validates the environment or
aborts with a configuration error. -/
def runStartup (env : Env) : StartupResult :=
  .ok (startupLogs env)

/-- The environment with every variable unset, so every required setting is
missing. -/
def emptyEnv : Env := fun _ => none

/-- Counterexample for C7: with every setting missing — in particular the
exchange identity and the trading pair — the startup program does not fail
with a ConfigError: it completes, logging the missing settings as
`not configured` and then `Bot initialized successfully`. -/
theorem startup_no_fail_cex :
    runStartup emptyEnv =
      .ok [ "Crypto Bot starting..."
          , "Mode: paper_trading"
          , "Exchange: not configured"
          , "Trading Pair: not configured"
          , "Bot initialized successfully" ] ∧
    isConfigError (runStartup emptyEnv) = false := by
  constructor
  · rfl
  · rfl

/-- C7 (amended): when a required setting such as the exchange identity or
the trading pair is missing, the startup program does not fail fast: for
every environment it completes startup with its log output, and with the
exchange unset (and the default log level) the log reports
`Exchange: not configured` and ends with `Bot initialized successfully`. -/
theorem startup_continues_on_missing_config :
    ∀ env : Env, runStartup env = .ok (startupLogs env) ∧
      (env "EXCHANGE" = none → env "LOG_LEVEL" = none →
        "Exchange: not configured" ∈ startupLogs env ∧
        "Bot initialized successfully" ∈ startupLogs env) := by
  intro env
  refine ⟨rfl, fun hex hll => ?_⟩
  have h1 : envLookup env "LOG_LEVEL" "info" = "info" := by
    simp [envLookup, hll]
  have h2 : envLookup env "EXCHANGE" "not configured" = "not configured" := by
    simp [envLookup, hex]
  simp [startupLogs, h1, infoEnabled, levelPriority, startupMessages, h2]

/-- Witness for C7 (amended): the empty environment has the exchange unset
and the startup log indeed contains both messages. -/
theorem startup_continues_on_missing_config_witness :
    "Exchange: not configured" ∈ startupLogs emptyEnv ∧
    "Bot initialized successfully" ∈ startupLogs emptyEnv := by
  exact (startup_continues_on_missing_config emptyEnv).2 rfl rfl

/-- The SIGINT handler of `src/index.js`: it logs `Bot shutting down...`
and terminates the process with exit code 0. -/
def handleSigint (logs : List String) : List String × ℕ :=
  (logs ++ [ "Bot shutting down..." ], 0)

/-- C8: on receiving SIGINT the process terminates with exit code 0 (after
logging the shutdown message), whatever has been logged before. -/
theorem sigint_exit_code_spec :
    ∀ logs : List String, (handleSigint logs).2 = 0 ∧
      (handleSigint logs).1 = logs ++ [ "Bot shutting down..." ] :=
  fun _ => ⟨rfl, rfl⟩

/-- C9: in every environment where `BOT_MODE` is unset, the reported mode is
the default `paper_trading` — the startup log contains
`Mode: paper_trading` and can never report `live_trading`. -/
theorem default_mode_spec :
    ∀ env : Env, env "BOT_MODE" = none →
      envLookup env "BOT_MODE" "paper_trading" = "paper_trading" ∧
      "Mode: paper_trading" ∈ startupMessages env ∧
      envLookup env "BOT_MODE" "paper_trading" ≠ "live_trading" := by
  intro env h
  have h1 : envLookup env "BOT_MODE" "paper_trading" = "paper_trading" := by
    simp [envLookup, h]
  refine ⟨h1, ?_, ?_⟩
  · simp only [startupMessages, h1]
    simp
  · rw [h1]
    decide

/-- Witness for C9: the empty environment has `BOT_MODE` unset and reports
`paper_trading`. -/
theorem default_mode_spec_witness :
    envLookup emptyEnv "BOT_MODE" "paper_trading" = "paper_trading" ∧
    "Mode: paper_trading" ∈ startupMessages emptyEnv ∧
    envLookup emptyEnv "BOT_MODE" "paper_trading" ≠ "live_trading" := by
  exact default_mode_spec emptyEnv rfl

/-- Replace the credential variables of an environment with `none`. -/
def scrubCredentials (env : Env) : Env :=
  fun k => if k = "API_KEY" ∨ k = "API_SECRET" then none else env k

/-- C10: credential noninterference of the startup log — two environments
agreeing on `LOG_LEVEL`, `BOT_MODE`, `EXCHANGE` and `TRADING_PAIR` but
differing arbitrarily in `API_KEY` and `API_SECRET` produce identical
startup log output, and every startup log is unchanged when the credentials
are removed from the environment: the credential values never reach the
log. -/
theorem credential_noninterference_spec :
    (∀ e1 e2 : Env,
      e1 "LOG_LEVEL" = e2 "LOG_LEVEL" → e1 "BOT_MODE" = e2 "BOT_MODE" →
      e1 "EXCHANGE" = e2 "EXCHANGE" → e1 "TRADING_PAIR" = e2 "TRADING_PAIR" →
      startupLogs e1 = startupLogs e2) ∧
    (∀ env : Env, startupLogs (scrubCredentials env) = startupLogs env) := by
  constructor
  · intro e1 e2 hl hm he ht
    simp only [startupLogs, startupMessages, envLookup, hl, hm, he, ht]
  · intro env
    have h : ∀ k, (k = "API_KEY" ∨ k = "API_SECRET") = False →
        scrubCredentials env k = env k := by
      intro k hk
      simp [scrubCredentials, hk]
    simp only [startupLogs, startupMessages, envLookup,
      h "LOG_LEVEL" (by simp), h "BOT_MODE" (by simp),
      h "EXCHANGE" (by simp), h "TRADING_PAIR" (by simp)]

/-- An environment holding one concrete credential pair. -/
def envWithKeyA : Env :=
  fun k => if k = "API_KEY" then some "key-one"
           else if k = "API_SECRET" then some "secret-one" else none

/-- An environment holding a different concrete credential pair. -/
def envWithKeyB : Env :=
  fun k => if k = "API_KEY" then some "key-two"
           else if k = "API_SECRET" then some "secret-two" else none

/-- Witness for C10: two concrete environments that differ only in their
credentials produce the same startup log. -/
theorem credential_noninterference_spec_witness :
    startupLogs envWithKeyA = startupLogs envWithKeyB := by
  exact credential_noninterference_spec.1 envWithKeyA envWithKeyB rfl rfl rfl rfl

end CryptoBot
